import Mathlib

/-!
Shallow embedding of `mandelbrot-rs` (src/main.rs), an interactive
Mandelbrot-set viewer.  Real-number (`f64`) arithmetic is modelled over `ℚ`
(exact arithmetic); `u32` arithmetic is modelled over `ℕ` with explicit
`% 2^32` wrapping where the Rust operations wrap.  The transcendental
shading term `1 - ln(log2(|z|^2)/2)` is kept abstract as a parameter
`sh : ℚ → ℚ` (or stated over `ℝ` inside theorem statements), since `f64`
transcendentals have no exact rational counterpart.
-/

namespace Mandelbrot

/-- Source constant `WIDTH: usize = 1024`. -/
def WIDTH : ℕ := 1024

/-- Source constant `HEIGHT: usize = 768`. -/
def HEIGHT : ℕ := 768

/-- Source constant `ZOOM: f64 = 2.0`. -/
def ZOOM : ℚ := 2

/-- Source constant `STEP_SIZE: f64 = 0.05`. -/
def STEP_SIZE : ℚ := 1 / 20

/-- Source constant `MIDDLE = ((WIDTH / 2) as f32, (HEIGHT / 2) as f32)`. -/
def MIDDLE : ℚ × ℚ := (512, 384)

/-- The modulus `2^32` of Rust `u32` arithmetic. -/
def U32MOD : ℕ := 4294967296

/-- The subset of `minifb::Key` values the application reacts to
(plus the wildcard arm of `PlotRange::shift` is modelled by the
constructors below being exhaustive for `ACTIVE_KEYS`). -/
inductive Key where
  | left | right | up | down | q | escape | c | numPadPlus | minus | numPadMinus
deriving DecidableEq, Repr

/-- Source constant `ACTIVE_KEYS: [Key; 10]`, in source order. -/
def ACTIVE_KEYS : List Key :=
  [Key.left, Key.right, Key.up, Key.down, Key.q, Key.escape, Key.c,
   Key.numPadPlus, Key.minus, Key.numPadMinus]

/-- Source struct `ApplicationSettings(zoom: f64, max_iterations: u32, colour: u32)`. -/
structure ApplicationSettings where
  zoom : ℚ
  max_iterations : ℕ
  colour : ℕ
deriving DecidableEq, Repr

/-- Source struct `PlotRange` with fields `top_left` and `bottom_right`;
a complex number is modelled as a pair `(re, im) : ℚ × ℚ`. -/
structure PlotRange where
  top_left : ℚ × ℚ
  bottom_right : ℚ × ℚ
deriving DecidableEq, Repr

namespace PlotRange

/-- Source method `PlotRange::height`, i.e. `bottom_right.im - top_left.im`. -/
def height (self : PlotRange) : ℚ := self.bottom_right.2 - self.top_left.2

/-- Source method `PlotRange::width`, i.e. `bottom_right.re - top_left.re`. -/
def width (self : PlotRange) : ℚ := self.bottom_right.1 - self.top_left.1

/-- Source method `PlotRange::index_to_point`: the `.floor()`
on `(index / WIDTH) as f64` is a no-op because `index / WIDTH` is already an
integer (Rust `usize` division), so natural division models it exactly. -/
def index_to_point (self : PlotRange) (index : ℕ) : ℚ × ℚ :=
  (((index % WIDTH : ℕ) : ℚ) / (WIDTH : ℚ) * self.width + self.top_left.1,
   ((index / WIDTH : ℕ) : ℚ) / (HEIGHT : ℚ) * self.height + self.top_left.2)

/-- Source method `PlotRange::zoom(point, out, settings)`.
Returns the mutated `(PlotRange, ApplicationSettings)` pair.  The Rust
`settings.max_iterations -= 5` / `+= 5` are wrapping `u32` operations
(release-mode semantics), modelled with explicit `% 2^32`. -/
def zoom (self : PlotRange) (point : ℚ × ℚ) (out : Bool)
    (settings : ApplicationSettings) : PlotRange × ApplicationSettings :=
  let h := self.height
  let w := self.width
  let z : ℚ := if out then 1 / settings.zoom else settings.zoom
  let settings' : ApplicationSettings :=
    if out then
      { settings with max_iterations := (settings.max_iterations + (U32MOD - 5)) % U32MOD }
    else
      { settings with max_iterations := (settings.max_iterations + 5) % U32MOD }
  let mid_x := point.1 / (WIDTH : ℚ) * w + self.top_left.1
  let mid_y := point.2 / (HEIGHT : ℚ) * h + self.top_left.2
  ({ top_left := (mid_x - w / (2 * z), mid_y - h / (2 * z)),
     bottom_right := (mid_x + w / (2 * z), mid_y + h / (2 * z)) },
   settings')

/-- Source method `PlotRange::shift(direction)`. -/
def shift (self : PlotRange) (direction : Key) : PlotRange :=
  let w := self.width * STEP_SIZE
  let delta : ℚ × ℚ :=
    match direction with
    | Key.left => (-w, 0)
    | Key.right => (w, 0)
    | Key.up => (0, w)
    | Key.down => (0, -w)
    | _ => (0, 0)
  { top_left := (self.top_left.1 + delta.1, self.top_left.2 + delta.2),
    bottom_right := (self.bottom_right.1 + delta.1, self.bottom_right.2 + delta.2) }

end PlotRange

/-- Source constant `START_RANGE: PlotRange`. -/
def START_RANGE : PlotRange :=
  { top_left := (-2, 5/4), bottom_right := (1, -5/4) }

/-- Squared magnitude of a modelled complex number: `Complex::norm_sqr`. -/
def normSq (z : ℚ × ℚ) : ℚ := z.1 * z.1 + z.2 * z.2

/-- Complex multiplication-and-add step of the escape loop: `z*z + c`. -/
def mandelStep (c z : ℚ × ℚ) : ℚ × ℚ :=
  (z.1 * z.1 - z.2 * z.2 + c.1, 2 * (z.1 * z.2) + c.2)

/-- The Mandelbrot orbit of `c`: `orbit c 0 = 0`, `orbit c (k+1) = (orbit c k)² + c`. -/
def orbit (c : ℚ × ℚ) : ℕ → ℚ × ℚ
  | 0 => (0, 0)
  | k + 1 => mandelStep c (orbit c k)

/-- The loop body of `escape_time`: iterating with `fuel` remaining
iterations, current index `i` and current value `z`, return the index of the
first escaping iteration together with `|z|²` at that moment (the data from
which the source computes its return value `i + shade(|z|²)`). -/
def escapeLoop (c : ℚ × ℚ) : ℕ → ℕ → ℚ × ℚ → Option (ℕ × ℚ)
  | _, 0, _ => none
  | i, fuel + 1, z =>
    let z' := mandelStep c z
    if 4 < normSq z' then some (i, normSq z') else escapeLoop c (i + 1) fuel z'

/-- Source function `escape_time(c, settings) -> Option<f64>`,
modelled up to the final shading: the source returns
`Some((i as f64) + shade)` with `shade = 1 - (norm_sqr.log2() / 2).ln()`;
this core returns the pair `(i, norm_sqr)` that determines that value. -/
def escape_time (c : ℚ × ℚ) (max_iterations : ℕ) : Option (ℕ × ℚ) :=
  escapeLoop c 0 max_iterations (0, 0)

/-- The value returned by `escape_time` once a shading function `sh`
(modelling the transcendental `fun n => 1 - ln(log2 n / 2)`) and a cast of
the iteration index are supplied: `Some((i as f64) + shade)`. -/
def escape_val {α : Type} [Add α] (cast : ℕ → α) (sh : ℚ → α)
    (c : ℚ × ℚ) (max_iterations : ℕ) : Option α :=
  (escape_time c max_iterations).map fun p => cast p.1 + sh p.2

/-- Rust `f64 as u32` saturating cast semantics, on the rational model:
negative values go to `0`, values at or above `u32::MAX` go to `u32::MAX`,
and values in range are truncated toward zero (= floored, as they are
non-negative). `NaN → 0` has no rational representative. -/
def f64_as_u32 (v : ℚ) : ℕ :=
  if v < 0 then 0 else min (Int.toNat ⌊v⌋) (U32MOD - 1)

/-- The body of `Application::update`: the value written into buffer slot
`index` is `self.settings.colour * escape_time(&z, &self.settings).unwrap_or(0.0) as u32`
with `z = self.plot_range.index_to_point(index)`; the `u32` multiplication
wraps.  The buffer is modelled as the function from indices to written
values (every slot `index < WIDTH*HEIGHT` is overwritten with this value). -/
def update (sh : ℚ → ℚ) (plot_range : PlotRange) (settings : ApplicationSettings)
    (index : ℕ) : ℕ :=
  (settings.colour *
    f64_as_u32 ((escape_val (fun i => (i : ℚ)) sh
      (plot_range.index_to_point index) settings.max_iterations).getD 0)) % U32MOD

/-- The per-tick input sample: which mouse buttons are held, the cursor
position when available (`get_mouse_pos(MouseMode::Clamp)`), and which keys
are held. -/
structure Input where
  left_button : Bool
  right_button : Bool
  mouse_pos : Option (ℚ × ℚ)
  key_down : Key → Bool

/-- The state transitions a tick can apply. -/
inductive Action where
  | zoomAct (point : ℚ × ℚ) (out : Bool)
  | shiftAct (direction : Key)
  | recolor
  | quit
deriving DecidableEq, Repr

/-- Source method `Application::key_press`: the first key of `ACTIVE_KEYS`
currently held. -/
def key_press (inp : Input) : Option Key := ACTIVE_KEYS.find? inp.key_down

/-- The mouse branch of one `main_loop` tick: if a mouse button is held and
the cursor position is available, zoom at the cursor (`out = right_button`). -/
def mouseActions (inp : Input) : List Action :=
  if inp.left_button || inp.right_button then
    match inp.mouse_pos with
    | some point => [Action.zoomAct point inp.right_button]
    | none => []
  else []

/-- The keyboard branch of one `main_loop` tick: the `match self.key_press()`
dispatch. -/
def keyActions (inp : Input) : List Action :=
  match key_press inp with
  | some Key.left => [Action.shiftAct Key.left]
  | some Key.right => [Action.shiftAct Key.right]
  | some Key.up => [Action.shiftAct Key.up]
  | some Key.down => [Action.shiftAct Key.down]
  | some Key.numPadPlus => [Action.zoomAct MIDDLE false]
  | some Key.numPadMinus => [Action.zoomAct MIDDLE true]
  | some Key.minus => [Action.zoomAct MIDDLE true]
  | some Key.q => [Action.quit]
  | some Key.escape => [Action.quit]
  | some Key.c => [Action.recolor]
  | _ => []

/-- All state transitions applied in one tick of `main_loop`, in order: the
mouse branch runs first, then the keyboard dispatch. -/
def tickActions (inp : Input) : List Action :=
  mouseActions inp ++ keyActions inp

/-- The orientation invariant of the viewport rectangle:
`top_left.re < bottom_right.re` and `top_left.im > bottom_right.im`. -/
def Oriented (r : PlotRange) : Prop :=
  r.top_left.1 < r.bottom_right.1 ∧ r.bottom_right.2 < r.top_left.2

instance (r : PlotRange) : Decidable (Oriented r) := by
  unfold Oriented; infer_instance

/-- Concrete settings used by the zoom round-trip counterexample. -/
def c3Settings : ApplicationSettings := ⟨2, 255, 256⟩

/-- One zoom-in at pixel `(0, 0)` from the start range. -/
def c3Once : PlotRange × ApplicationSettings := START_RANGE.zoom (0, 0) false c3Settings

/-- The zoom-in of `c3Once` followed by a zoom-out at the same pixel `(0, 0)`
with the settings (hence the reciprocal factor) produced by `c3Once`. -/
def c3Twice : PlotRange × ApplicationSettings := c3Once.1.zoom (0, 0) true c3Once.2

/-! ## Helper lemmas -/

/-- The viewport component of `PlotRange::zoom`, written out explicitly. -/
theorem zoom_fst (r : PlotRange) (p : ℚ × ℚ) (out : Bool) (s : ApplicationSettings) :
    (r.zoom p out s).1 =
      { top_left :=
          (p.1 / (WIDTH : ℚ) * r.width + r.top_left.1 -
             r.width / (2 * (if out then 1 / s.zoom else s.zoom)),
           p.2 / (HEIGHT : ℚ) * r.height + r.top_left.2 -
             r.height / (2 * (if out then 1 / s.zoom else s.zoom))),
        bottom_right :=
          (p.1 / (WIDTH : ℚ) * r.width + r.top_left.1 +
             r.width / (2 * (if out then 1 / s.zoom else s.zoom)),
           p.2 / (HEIGHT : ℚ) * r.height + r.top_left.2 +
             r.height / (2 * (if out then 1 / s.zoom else s.zoom))) } := by
  cases out <;> rfl

/-- The `zoom` factor of the settings is unchanged by `PlotRange::zoom`. -/
theorem zoom_snd_zoom (r : PlotRange) (p : ℚ × ℚ) (out : Bool)
    (s : ApplicationSettings) : ((r.zoom p out s).2).zoom = s.zoom := by
  cases out
  · simp only [PlotRange.zoom]
    rw [if_neg (by simp)]
  · simp only [PlotRange.zoom]
    rw [if_pos trivial]

/-! ## Theorems -/

/-- C1: zooming out is claimed to decrease `max_iterations` by 5 floored at
0, never going negative even from values smaller than 5.  The code performs
an unguarded `u32` subtraction: starting from `max_iterations = 3`, one
zoom-out leaves `max_iterations = 4294967294` (wrap-around; with debug
assertions the subtraction panics instead), not the floored value 0.  The
statement below evaluates the code model at that failing input. -/
theorem zoom_out_max_iterations_underflows :
    ((START_RANGE.zoom MIDDLE true ⟨2, 3, 256⟩).2).max_iterations = 4294967294 ∧
    ¬ ((START_RANGE.zoom MIDDLE true ⟨2, 3, 256⟩).2).max_iterations ≤ 3 := by
  constructor <;> decide

/-- C2 (counterexample): with the left mouse button held, the cursor at
`(100, 100)`, and the Left arrow key held, a single tick applies two state
transitions — a mouse-centred zoom-in and then a directional shift — so the
claim that at most one transition fires per tick, and in particular that a
held mouse button and a held directional key never both mutate the viewport
in one tick, is false. -/
theorem tick_two_transitions :
    tickActions ⟨true, false, some (100, 100), fun k => decide (k = Key.left)⟩ =
      [Action.zoomAct (100, 100) false, Action.shiftAct Key.left] ∧
    ¬ (tickActions ⟨true, false, some (100, 100),
        fun k => decide (k = Key.left)⟩).length ≤ 1 := by
  constructor <;> decide

/-- C2 (amended): each branch of a tick is exclusive on its own — the
keyboard dispatch applies at most one transition (the first held key in
`ACTIVE_KEYS` order wins) and the mouse branch applies at most one zoom —
but the two branches are independent and sequential, so a held mouse button
and a held key can both fire in the same tick (up to two transitions, the
mouse zoom applied first). -/
theorem tick_at_most_one_per_branch (inp : Input) :
    (keyActions inp).length ≤ 1 ∧ (mouseActions inp).length ≤ 1 ∧
    tickActions inp = mouseActions inp ++ keyActions inp := by
  refine ⟨?_, ?_, rfl⟩
  · unfold keyActions
    rcases h : key_press inp with _ | k
    · simp
    · cases k <;> simp
  · unfold mouseActions
    rcases inp.left_button || inp.right_button with _ | _ <;>
      rcases inp.mouse_pos with _ | p <;> simp

/-- C9: `shift(left)` followed by `shift(right)` returns the rectangle
exactly to its original corners: each call translates by
`STEP_SIZE * width()` of the rectangle at the time of the call, and the
first shift leaves `width()` unchanged, so the two translations cancel
exactly in the real-arithmetic model. -/
theorem shift_left_right_roundtrip (r : PlotRange) :
    (r.shift Key.left).shift Key.right = r := by
  obtain ⟨⟨a, b⟩, ⟨c, d⟩⟩ := r
  simp only [PlotRange.shift, PlotRange.width, STEP_SIZE]
  congr 1 <;> ring_nf

/-- C10: `PlotRange::zoom` mutates only the `max_iterations` field of the
settings; the `zoom` factor and the `colour` scale are returned unchanged
for every starting state, pixel point and direction. -/
theorem zoom_preserves_zoom_factor_and_colour (r : PlotRange) (p : ℚ × ℚ)
    (out : Bool) (s : ApplicationSettings) :
    ((r.zoom p out s).2).zoom = s.zoom ∧ ((r.zoom p out s).2).colour = s.colour := by
  cases out
  · simp only [PlotRange.zoom]
    rw [if_neg (by simp)]
    exact ⟨rfl, rfl⟩
  · simp only [PlotRange.zoom]
    rw [if_pos trivial]
    exact ⟨rfl, rfl⟩

/-- C7: when the value the shading computation produces for a pixel is
negative (as happens for points escaping with large magnitude, where
`1 - ln(log2 n / 2) < 0` and the iteration index is 0), the Rust
`f64 as u32` saturating cast clamps it and the written pixel value is `0`;
the bad value is not propagated into the colour. -/
theorem update_clamps_negative_shade (sh : ℚ → ℚ) (r : PlotRange)
    (s : ApplicationSettings) (index : ℕ)
    (hneg : (escape_val (fun i => (i : ℚ)) sh (r.index_to_point index)
      s.max_iterations).getD 0 < 0) :
    update sh r s index = 0 := by
  unfold update f64_as_u32
  rw [if_pos hneg, Nat.mul_zero, Nat.zero_mod]

/-- Witness for C7: the true shade at `|z|² = 49` is
`1 - ln(log2 49 / 2) ≈ -0.032`; with the shading model returning `-1/32`,
the pixel for `c = 7` (hit by index 0 of the rectangle with
`top_left = (7, 0)`) escapes at index 0 with value `-1/32 < 0`, and the
written pixel value is `0`. -/
theorem update_clamps_negative_shade_witness :
    update (fun _ => -1/32) ⟨(7, 0), (8, -1)⟩ ⟨2, 5, 256⟩ 0 = 0 :=
  update_clamps_negative_shade (fun _ => -1/32) ⟨(7, 0), (8, -1)⟩ ⟨2, 5, 256⟩ 0
    (by norm_num [escape_val, escape_time, escapeLoop, mandelStep, normSq,
      PlotRange.index_to_point, PlotRange.width, PlotRange.height, WIDTH, HEIGHT])

/-- C3 (counterexample): zoom-in at pixel `(0, 0)` from the start range
followed by zoom-out at the same pixel `(0, 0)` with the reciprocal factor
does not restore the rectangle: the top-left corner moves from `(-2, 5/4)`
to `(-17/4, 25/8)`, an error of `9/4` in the real part — proportional to the
rectangle width, far beyond any floating-point tolerance (each zoom
recenters on the clicked point, so a non-central pixel denotes a different
complex point after the first zoom). -/
theorem zoom_roundtrip_fails_off_center :
    c3Twice.1.top_left = (-17/4, 25/8) ∧ START_RANGE.top_left = (-2, 5/4) ∧
    c3Twice.1.top_left.1 - START_RANGE.top_left.1 = -9/4 ∧
    c3Twice.1 ≠ START_RANGE := by
  have h1 : c3Once.1 = ⟨(-11/4, 15/8), (-5/4, 5/8)⟩ := by
    norm_num [c3Once, c3Settings, START_RANGE, PlotRange.zoom, PlotRange.width,
      PlotRange.height, WIDTH, HEIGHT]
  have h2 : c3Once.2.zoom = 2 := by
    norm_num [c3Once, c3Settings, PlotRange.zoom]
  have h3 : c3Twice.1 = ⟨(-17/4, 25/8), (-5/4, 5/8)⟩ := by
    rw [c3Twice, h1]
    norm_num [PlotRange.zoom, PlotRange.width, PlotRange.height, WIDTH, HEIGHT, h2]
  refine ⟨by rw [h3], by norm_num [START_RANGE], by rw [h3]; norm_num [START_RANGE], ?_⟩
  rw [h3]
  intro h
  have := congrArg PlotRange.top_left h
  norm_num [START_RANGE] at this

/-- C3 (amended): the round-trip law does hold at the window midpoint
`MIDDLE` (the pixel point used for keyboard zooms): zoom-in at `MIDDLE`
followed by zoom-out at `MIDDLE` with the settings produced by the zoom-in
(hence the reciprocal factor) restores both corners exactly in exact real
arithmetic, for every rectangle and every zoom factor greater than 1. -/
theorem zoom_roundtrip_at_middle (r : PlotRange) (s : ApplicationSettings)
    (hz : 1 < s.zoom) :
    ((r.zoom MIDDLE false s).1.zoom MIDDLE true ((r.zoom MIDDLE false s).2)).1 = r := by
  have hz0 : s.zoom ≠ 0 := (zero_lt_one.trans hz).ne'
  obtain ⟨⟨a, b⟩, ⟨c, d⟩⟩ := r
  simp only [zoom_fst, zoom_snd_zoom, PlotRange.width, PlotRange.height, MIDDLE,
    WIDTH, HEIGHT, Bool.false_eq_true, if_false, if_true, ite_true, ite_false]
  simp only [PlotRange.mk.injEq, Prod.mk.injEq]
  refine ⟨⟨?_, ?_⟩, ?_, ?_⟩ <;> (field_simp; ring)

/-- Witness for the amended C3 at the start range with zoom factor 2. -/
theorem zoom_roundtrip_at_middle_witness :
    (1 : ℚ) < 2 ∧
    ((START_RANGE.zoom MIDDLE false ⟨2, 255, 256⟩).1.zoom MIDDLE true
      ((START_RANGE.zoom MIDDLE false ⟨2, 255, 256⟩).2)).1 = START_RANGE :=
  ⟨by norm_num, zoom_roundtrip_at_middle START_RANGE ⟨2, 255, 256⟩ (by norm_num)⟩

/-- C8: both mutations of the viewport preserve the orientation invariant:
for every correctly oriented rectangle, every zoom (at any pixel point, in
either direction, with zoom factor greater than 1) and every shift (in any
direction) yield a rectangle with `top_left.re < bottom_right.re` and
`top_left.im > bottom_right.im`. -/
theorem zoom_and_shift_preserve_orientation (r : PlotRange) (s : ApplicationSettings)
    (p : ℚ × ℚ) (out : Bool) (dir : Key)
    (hr : Oriented r) (hz : 1 < s.zoom) :
    Oriented (r.zoom p out s).1 ∧ Oriented (r.shift dir) := by
  obtain ⟨h1, h2⟩ := hr
  have hw : 0 < r.width := by simp only [PlotRange.width]; linarith
  have hh : r.height < 0 := by simp only [PlotRange.height]; linarith
  have hz0 : (0 : ℚ) < s.zoom := zero_lt_one.trans hz
  constructor
  · rw [zoom_fst]
    have hzz : (0 : ℚ) < (if out then 1 / s.zoom else s.zoom) := by
      cases out
      · simpa using hz0
      · simp only [ite_true, if_true]
        positivity
    have hwz : 0 < r.width / (2 * (if out then 1 / s.zoom else s.zoom)) :=
      div_pos hw (by positivity)
    have hhz : r.height / (2 * (if out then 1 / s.zoom else s.zoom)) < 0 :=
      div_neg_of_neg_of_pos hh (by positivity)
    exact ⟨by dsimp only; linarith, by dsimp only; linarith⟩
  · cases dir <;>
      exact ⟨by dsimp only [PlotRange.shift]; linarith,
             by dsimp only [PlotRange.shift]; linarith⟩

/-- Witness for C8 at the start range, zoom factor 2, pixel `MIDDLE`,
zoom-in, and a left shift. -/
theorem zoom_and_shift_preserve_orientation_witness :
    Oriented START_RANGE ∧ (1 : ℚ) < 2 ∧
    (Oriented (START_RANGE.zoom MIDDLE false ⟨2, 255, 256⟩).1 ∧
     Oriented (START_RANGE.shift Key.left)) :=
  ⟨by norm_num [Oriented, START_RANGE], by norm_num,
   zoom_and_shift_preserve_orientation START_RANGE ⟨2, 255, 256⟩ MIDDLE false
     Key.left (by norm_num [Oriented, START_RANGE]) (by norm_num)⟩

/-- C6: for every correctly oriented rectangle and every pixel index
`i < WIDTH * HEIGHT`, `index_to_point i` lies in the closed rectangle
`[top_left.re, bottom_right.re] × [bottom_right.im, top_left.im]`. -/
theorem index_to_point_in_rect (r : PlotRange) (i : ℕ)
    (hr : Oriented r) (hi : i < WIDTH * HEIGHT) :
    r.top_left.1 ≤ (r.index_to_point i).1 ∧
    (r.index_to_point i).1 ≤ r.bottom_right.1 ∧
    r.bottom_right.2 ≤ (r.index_to_point i).2 ∧
    (r.index_to_point i).2 ≤ r.top_left.2 := by
  obtain ⟨h1, h2⟩ := hr
  have hw : 0 < r.width := by simp only [PlotRange.width]; linarith
  have hh : r.height < 0 := by simp only [PlotRange.height]; linarith
  have hbr1 : r.bottom_right.1 = r.top_left.1 + r.width := by
    simp only [PlotRange.width]; ring
  have hbr2 : r.bottom_right.2 = r.top_left.2 + r.height := by
    simp only [PlotRange.height]; ring
  simp only [PlotRange.index_to_point]
  set fx : ℚ := ((i % WIDTH : ℕ) : ℚ) / (WIDTH : ℚ) with hfx
  set fy : ℚ := ((i / WIDTH : ℕ) : ℚ) / (HEIGHT : ℚ) with hfy
  have hx0 : (0 : ℚ) ≤ fx := by rw [hfx]; positivity
  have hx1 : fx ≤ 1 := by
    rw [hfx, div_le_one (by norm_num [WIDTH])]
    have hm : i % WIDTH < WIDTH := Nat.mod_lt _ (by norm_num [WIDTH])
    exact_mod_cast hm.le
  have hy0 : (0 : ℚ) ≤ fy := by rw [hfy]; positivity
  have hy1 : fy ≤ 1 := by
    rw [hfy, div_le_one (by norm_num [HEIGHT])]
    have hd : i / WIDTH < HEIGHT := by
      rw [Nat.div_lt_iff_lt_mul (by norm_num [WIDTH] : 0 < WIDTH)]
      calc i < WIDTH * HEIGHT := hi
        _ = HEIGHT * WIDTH := Nat.mul_comm _ _
    exact_mod_cast hd.le
  have k1 : 0 ≤ fx * r.width := mul_nonneg hx0 hw.le
  have k2 : fx * r.width ≤ r.width := by
    calc fx * r.width ≤ 1 * r.width := mul_le_mul_of_nonneg_right hx1 hw.le
      _ = r.width := one_mul _
  have k3 : r.height ≤ fy * r.height := by
    calc r.height = 1 * r.height := (one_mul _).symm
      _ ≤ fy * r.height := mul_le_mul_of_nonpos_right hy1 hh.le
  have k4 : fy * r.height ≤ 0 := mul_nonpos_iff.2 (Or.inl ⟨hy0, hh.le⟩)
  refine ⟨by linarith, by linarith, by linarith, by linarith⟩

/-- Witness for C6 at the start range and pixel index 0. -/
theorem index_to_point_in_rect_witness :
    Oriented START_RANGE ∧ 0 < WIDTH * HEIGHT ∧
    (START_RANGE.top_left.1 ≤ (START_RANGE.index_to_point 0).1 ∧
     (START_RANGE.index_to_point 0).1 ≤ START_RANGE.bottom_right.1 ∧
     START_RANGE.bottom_right.2 ≤ (START_RANGE.index_to_point 0).2 ∧
     (START_RANGE.index_to_point 0).2 ≤ START_RANGE.top_left.2) :=
  ⟨by norm_num [Oriented, START_RANGE], by norm_num [WIDTH, HEIGHT],
   index_to_point_in_rect START_RANGE 0 (by norm_num [Oriented, START_RANGE])
     (by norm_num [WIDTH, HEIGHT])⟩

/-- Characterization of the escape loop returning `none`: starting at index
`k` with the orbit value at step `k`, the loop exhausts its fuel without
result exactly when no iterate in the window escapes. -/
theorem escapeLoop_none_iff (c : ℚ × ℚ) (fuel : ℕ) : ∀ k : ℕ,
    (escapeLoop c k fuel (orbit c k) = none ↔
      ∀ j, k ≤ j → j < k + fuel → normSq (orbit c (j + 1)) ≤ 4) := by
  induction fuel with
  | zero =>
    intro k
    simp only [escapeLoop]
    constructor
    · intro _ j hkj hjk
      exact absurd hjk (by omega)
    · intro _
      trivial
  | succ fuel ih =>
    intro k
    rw [escapeLoop]
    have hstep : mandelStep c (orbit c k) = orbit c (k + 1) := rfl
    simp only [hstep]
    by_cases hesc : 4 < normSq (orbit c (k + 1))
    · rw [if_pos hesc]
      constructor
      · intro h
        exact absurd h (by simp)
      · intro h
        exact absurd (h k le_rfl (by omega)) (not_le.2 hesc)
    · rw [if_neg hesc]
      rw [ih (k + 1)]
      constructor
      · intro h j hkj hjk
        rcases Nat.eq_or_lt_of_le hkj with rfl | hlt
        · exact not_lt.1 hesc
        · exact h j hlt (by omega)
      · intro h j hkj hjk
        exact h j (by omega) (by omega)

/-- Characterization of the escape loop returning `some (i, n)`: `i` is the
first index in the window whose successor orbit value escapes, and `n` is
the squared magnitude there. -/
theorem escapeLoop_some_iff (c : ℚ × ℚ) (fuel : ℕ) : ∀ (k i : ℕ) (n : ℚ),
    (escapeLoop c k fuel (orbit c k) = some (i, n) ↔
      k ≤ i ∧ i < k + fuel ∧ 4 < normSq (orbit c (i + 1)) ∧
      (∀ j, k ≤ j → j < i → normSq (orbit c (j + 1)) ≤ 4) ∧
      n = normSq (orbit c (i + 1))) := by
  induction fuel with
  | zero =>
    intro k i n
    simp only [escapeLoop]
    constructor
    · intro h
      exact absurd h (by simp)
    · rintro ⟨h1, h2, -, -, -⟩
      exact absurd h2 (by omega)
  | succ fuel ih =>
    intro k i n
    rw [escapeLoop]
    have hstep : mandelStep c (orbit c k) = orbit c (k + 1) := rfl
    simp only [hstep]
    by_cases hesc : 4 < normSq (orbit c (k + 1))
    · rw [if_pos hesc]
      constructor
      · intro h
        obtain ⟨rfl, rfl⟩ : k = i ∧ normSq (orbit c (k + 1)) = n := by
          have := Option.some.inj h
          exact ⟨congrArg Prod.fst this, congrArg Prod.snd this⟩
        refine ⟨le_rfl, by omega, hesc, ?_, rfl⟩
        intro j hkj hjk
        exact absurd hjk (by omega)
      · rintro ⟨hki, hik, hesci, hprev, rfl⟩
        rcases Nat.eq_or_lt_of_le hki with rfl | hlt
        · rfl
        · exact absurd (hprev k le_rfl hlt) (not_le.2 hesc)
    · rw [if_neg hesc]
      rw [ih (k + 1) i n]
      constructor
      · rintro ⟨hki, hik, hesci, hprev, rfl⟩
        refine ⟨by omega, by omega, hesci, ?_, rfl⟩
        intro j hkj hji
        rcases Nat.eq_or_lt_of_le hkj with rfl | hlt
        · exact not_lt.1 hesc
        · exact hprev j (by omega) hji
      · rintro ⟨hki, hik, hesci, hprev, rfl⟩
        have hne : k ≠ i := by
          rintro rfl
          exact absurd hesci hesc
        refine ⟨by omega, by omega, hesci, ?_, rfl⟩
        intro j hkj hji
        exact hprev j (by omega) hji

/-- C4: the escape-time evaluator starts from `z = 0`, iterates
`z = z*z + c` at most `max_iterations` times, and returns
`Some(i + shade)` with `shade = 1 - ln(log2(|z|^2)/2)` for the first
iteration index `i` whose iterate has `|z|^2 > 4` (`orbit c (i+1)` is the
value of `z` after the update of iteration `i`), and `None` when no
iteration within the cap escapes. -/
theorem escape_time_correct (c : ℚ × ℚ) (m : ℕ) :
    (escape_val (fun i => (i : ℝ)) (fun n => 1 - Real.log (Real.logb 2 (n : ℝ) / 2)) c m
        = none ↔ ∀ i, i < m → normSq (orbit c (i + 1)) ≤ 4) ∧
    (∀ v : ℝ,
      escape_val (fun i => (i : ℝ)) (fun n => 1 - Real.log (Real.logb 2 (n : ℝ) / 2)) c m
          = some v ↔
        ∃ i, i < m ∧ 4 < normSq (orbit c (i + 1)) ∧
          (∀ j, j < i → normSq (orbit c (j + 1)) ≤ 4) ∧
          v = (i : ℝ) + (1 - Real.log (Real.logb 2 ((normSq (orbit c (i + 1)) : ℚ) : ℝ) / 2))) := by
  have h0 : ((0 : ℚ), (0 : ℚ)) = orbit c 0 := rfl
  constructor
  · rw [escape_val, Option.map_eq_none', escape_time, h0, escapeLoop_none_iff]
    constructor
    · intro h i him
      exact h i (Nat.zero_le _) (by omega)
    · intro h j _ hj
      exact h j (by omega)
  · intro v
    rw [escape_val, Option.map_eq_some']
    constructor
    · rintro ⟨⟨i, n⟩, hp, hv⟩
      rw [escape_time, h0, escapeLoop_some_iff] at hp
      obtain ⟨-, him, hesc, hprev, hn⟩ := hp
      refine ⟨i, by omega, hesc, fun j hj => hprev j (Nat.zero_le _) hj, ?_⟩
      rw [← hv, hn]
    · rintro ⟨i, him, hesc, hprev, rfl⟩
      refine ⟨(i, normSq (orbit c (i + 1))), ?_, rfl⟩
      rw [escape_time, h0, escapeLoop_some_iff]
      exact ⟨Nat.zero_le _, by omega, hesc, fun j _ hj => hprev j hj, rfl⟩

/-- C5: for every pixel index `i < WIDTH * HEIGHT`, the render pass writes
into buffer slot `i` the value `color_scale * floor(shade)` reduced by the
wrapping `u32` multiplication, where `shade` is the escape value of
`index_to_point i` under `max_iterations` and an escape result of `None` is
mapped to shade `0.0`; the hypotheses restrict to shades in `[0, 2^32)`,
where the `f64 as u32` truncation agrees with the floor (a negative shade
is clamped to 0 instead, see the error-handling theorem). -/
theorem update_writes_scaled_floor (sh : ℚ → ℚ) (r : PlotRange)
    (s : ApplicationSettings) (index : ℕ) (hidx : index < WIDTH * HEIGHT)
    (h0 : 0 ≤ (escape_val (fun i => (i : ℚ)) sh (r.index_to_point index)
      s.max_iterations).getD 0)
    (h1 : (escape_val (fun i => (i : ℚ)) sh (r.index_to_point index)
      s.max_iterations).getD 0 < (U32MOD : ℚ)) :
    update sh r s index =
      (s.colour * Int.toNat ⌊(escape_val (fun i => (i : ℚ)) sh
        (r.index_to_point index) s.max_iterations).getD 0⌋) % U32MOD := by
  unfold update f64_as_u32
  rw [if_neg (not_lt.2 h0)]
  congr 2
  apply min_eq_left
  have hf : ⌊(escape_val (fun i => (i : ℚ)) sh (r.index_to_point index)
      s.max_iterations).getD 0⌋ < (U32MOD : ℤ) := by
    apply Int.floor_lt.2
    push_cast
    exact h1
  simp only [U32MOD] at hf ⊢
  omega

/-- Witness for C5: the pixel for `c = 7` escapes at index 0; with the
shading model returning `3/2` the written value is `256 * 1`. -/
theorem update_writes_scaled_floor_witness :
    0 < WIDTH * HEIGHT ∧
    update (fun _ => 3/2) ⟨(7, 0), (8, -1)⟩ ⟨2, 5, 256⟩ 0 =
      (256 * Int.toNat ⌊(escape_val (fun i => (i : ℚ)) (fun _ => (3 : ℚ)/2)
        (PlotRange.index_to_point ⟨(7, 0), (8, -1)⟩ 0) 5).getD 0⌋) % U32MOD :=
  ⟨by norm_num [WIDTH, HEIGHT],
   update_writes_scaled_floor (fun _ => 3/2) ⟨(7, 0), (8, -1)⟩ ⟨2, 5, 256⟩ 0
     (by norm_num [WIDTH, HEIGHT])
     (by norm_num [escape_val, escape_time, escapeLoop, mandelStep, normSq,
        PlotRange.index_to_point, PlotRange.width, PlotRange.height, WIDTH, HEIGHT])
     (by norm_num [escape_val, escape_time, escapeLoop, mandelStep, normSq,
        PlotRange.index_to_point, PlotRange.width, PlotRange.height, WIDTH, HEIGHT,
        U32MOD])⟩

end Mandelbrot
